import Mathlib

/-!
# Shallow embedding of the TEngine A* pathfinding core

This file embeds `src/core/helpers/pathfinding.ts` (class `PathfindingHelper`
together with its `PathNode`, `Heuristic` and `PathfindingOptions` companions)
and the small slice of `src/core/scene.ts` / `src/core/entity/entity.ts` that
`findPathInScene` consumes, and proves the specification claims about them.

Modelling conventions:
* grid coordinates and grid extents are `Int` (the source uses JS numbers as
  integers throughout this subsystem);
* costs (`g`, `h`, `f`, `diagonalCost`) are `ℚ`; the source literal `1.414`
  becomes `1414/1000`;
* `Math.sqrt` in the Euclidean heuristic branch is irrational-valued and has
  no computable exact counterpart; it is modelled by the integer square root
  `Nat.sqrt`.  No claim below depends on the value of the Euclidean branch,
  and every theorem about the search loop is proved uniformly in the
  heuristic values;
* the `while` loop of `findPath` is written as recursion on the remaining
  iteration budget `maxIterations - iterations`, which is exactly the number
  of times the source guard `iterations < maxIterations` can still succeed;
* `Array.prototype.sort` (guaranteed stable, comparator `a.f - b.f`) is
  modelled by the stable `List.mergeSort`; `Array.prototype.find`,
  `push`, `shift` and in-place field mutation of a found node become
  `List.find?`, append, head/tail split and first-match replacement;
* the JS `Set<string>` of node keys is modelled as a list of the same keys
  with membership lookup (insertion of duplicates never matters for
  membership).
-/

/-- `src/types/point.ts`: `Point = { y: number, x: number }`. -/
@[ext]
structure Point where
  y : Int
  x : Int
deriving DecidableEq, Repr

instance : Inhabited Point := ⟨⟨0, 0⟩⟩

/-- `Heuristic` enum from `pathfinding.ts`. -/
inductive Heuristic where
  | manhattan
  | euclidean
  | chebyshev
  | octile
deriving DecidableEq, Repr

/-- `PathfindingOptions` from `pathfinding.ts`: every field is optional and
`findPath` applies the documented default (`??`) when a field is absent. -/
structure PathfindingOptions where
  allowDiagonal : Option Bool := none
  heuristic : Option Heuristic := none
  maxIterations : Option Nat := none
  diagonalCost : Option ℚ := none
  isWalkable : Option (Int → Int → Bool) := none

/-- `PathNode` from `pathfinding.ts`: position, `g`, `h`, `f` and a
`parent : PathNode | null` link.  The two constructors encode the null and
non-null parent cases. -/
inductive PathNode where
  | root (position : Point) (g h f : ℚ)
  | step (position : Point) (g h f : ℚ) (parent : PathNode)
deriving DecidableEq

/-- Field accessor `node.position`. -/
def PathNode.position : PathNode → Point
  | .root p _ _ _ => p
  | .step p _ _ _ _ => p

/-- Field accessor `node.g`. -/
def PathNode.g : PathNode → ℚ
  | .root _ g _ _ => g
  | .step _ g _ _ _ => g

/-- Field accessor `node.h`. -/
def PathNode.h : PathNode → ℚ
  | .root _ _ h _ => h
  | .step _ _ h _ _ => h

/-- Field accessor `node.f`. -/
def PathNode.f : PathNode → ℚ
  | .root _ _ _ f => f
  | .step _ _ _ f _ => f

/-- Field accessor `node.parent` (`null` becomes `none`). -/
def PathNode.parent : PathNode → Option PathNode
  | .root _ _ _ _ => none
  | .step _ _ _ _ p => some p

/-- `PathfindingHelper.isInBounds`. -/
def isInBounds (position : Point) (width height : Int) : Bool :=
  position.y ≥ 0 && position.y < height && position.x ≥ 0 && position.x < width

/-- `PathfindingHelper.getNodeKey`: the string `` `${y},${x}` ``. -/
def getNodeKey (position : Point) : String :=
  toString position.y ++ "," ++ toString position.x

/-- `PathfindingHelper.calculateHeuristic`.  `Math.abs` of an integer
difference is `Int.natAbs` cast to `ℚ`; the `Math.sqrt` of the Euclidean
branch is modelled by `Nat.sqrt` (see the file header). -/
def calculateHeuristic (a b : Point) (heuristic : Heuristic) : ℚ :=
  let dx : ℚ := ((b.x - a.x).natAbs : ℚ)
  let dy : ℚ := ((b.y - a.y).natAbs : ℚ)
  match heuristic with
  | .manhattan => dx + dy
  | .euclidean => (Nat.sqrt ((b.x - a.x).natAbs * (b.x - a.x).natAbs +
      (b.y - a.y).natAbs * (b.y - a.y).natAbs) : ℚ)
  | .chebyshev => max dx dy
  | .octile => dx + dy + (1414/1000 - 2) * min dx dy

/-- The `cardinalDirections` array of `getNeighbors`, in source order (up,
right, down, left). -/
def cardinalCells (position : Point) : List Point :=
  [⟨position.y - 1, position.x⟩, ⟨position.y, position.x + 1⟩,
   ⟨position.y + 1, position.x⟩, ⟨position.y, position.x - 1⟩]

/-- The `diagonalDirections` array of `getNeighbors`, in source order
(up-right, down-right, down-left, up-left). -/
def diagonalCells (position : Point) : List Point :=
  [⟨position.y - 1, position.x + 1⟩, ⟨position.y + 1, position.x + 1⟩,
   ⟨position.y + 1, position.x - 1⟩, ⟨position.y - 1, position.x - 1⟩]

/-- `PathfindingHelper.getNeighbors`.  The source pushes, in order, each of
the four cardinal candidates that is in-bounds and walkable, then (only when
`allowDiagonal`) each of the four diagonal candidates that is in-bounds,
walkable and has at least one walkable flanking orthogonal cell
(`verticalClear || horizontalClear`). -/
def getNeighbors (position : Point) (width height : Int) (allowDiagonal : Bool)
    (isWalkable : Int → Int → Bool) : List Point :=
  let neighbors := (cardinalCells position).foldl
    (fun acc dir =>
      if isInBounds dir width height && isWalkable dir.y dir.x then acc ++ [dir] else acc)
    []
  if allowDiagonal then
    (diagonalCells position).foldl
      (fun acc dir =>
        if isInBounds dir width height && isWalkable dir.y dir.x then
          if isWalkable dir.y position.x || isWalkable position.y dir.x then
            acc ++ [dir]
          else acc
        else acc)
      neighbors
  else neighbors

/-- The `while (current !== null)` collector of `reconstructPath`:
`reconstructAux n acc` prepends, walking up the parent links, every position
from the chain of `n` in front of `acc`. -/
def reconstructAux : PathNode → List Point → List Point
  | .root pos _ _ _, acc => pos :: acc
  | .step pos _ _ _ parent, acc => reconstructAux parent (pos :: acc)

/-- `PathfindingHelper.reconstructPath`: positions from the root of the
parent chain down to `node`, in that order. -/
def reconstructPath (node : PathNode) : List Point :=
  reconstructAux node []

/-- Replace the first element satisfying `p` by its image under `fn`,
modelling the in-place mutation of the node `Array.prototype.find` returned. -/
def updateFirst (p : PathNode → Bool) (fn : PathNode → PathNode) :
    List PathNode → List PathNode
  | [] => []
  | n :: rest => if p n then fn n :: rest else n :: updateFirst p fn rest

/-- Body of the `for (const neighborPos of neighbors)` loop of `findPath`:
skip coordinates already closed; otherwise either insert a fresh node
(appended, parent `current`) or, when a strictly better `g` was found,
update the existing open node in place. -/
def processNeighbor (goal : Point) (heuristic : Heuristic) (diagonalCost : ℚ)
    (current : PathNode) (closedSet : List String)
    (acc : List PathNode) (neighborPos : Point) : List PathNode :=
  let neighborKey := getNodeKey neighborPos
  if closedSet.contains neighborKey then acc
  else
    let isDiagonal :=
      neighborPos.y ≠ current.position.y ∧ neighborPos.x ≠ current.position.x
    let movementCost := if isDiagonal then diagonalCost else 1
    let tentativeG := current.g + movementCost
    match acc.find? (fun n =>
        n.position.y == neighborPos.y && n.position.x == neighborPos.x) with
    | none =>
        let hN := calculateHeuristic neighborPos goal heuristic
        acc ++ [PathNode.step neighborPos tentativeG hN (tentativeG + hN) current]
    | some nbr =>
        if tentativeG < nbr.g then
          updateFirst
            (fun n => n.position.y == neighborPos.y && n.position.x == neighborPos.x)
            (fun n => PathNode.step n.position tentativeG n.h (tentativeG + n.h) current)
            acc
        else acc

/-- The `while (openSet.length > 0 && iterations < maxIterations)` loop of
`findPath`, by recursion on the remaining budget
`maxIterations - iterations` (`fuel`).  Each iteration stably sorts the open
list by `f`, shifts the front node, returns on goal, otherwise closes the
node's key and folds `processNeighbor` over its neighbors. -/
def astarLoop (goal : Point) (width height : Int) (allowDiagonal : Bool)
    (heuristic : Heuristic) (diagonalCost : ℚ) (isWalkable : Int → Int → Bool) :
    Nat → List PathNode → List String → Option (List Point)
  | 0, _, _ => none
  | fuel + 1, openSet, closedSet =>
    match List.mergeSort openSet (fun a b => a.f ≤ b.f) with
    | [] => none
    | current :: rest =>
      if current.position.y == goal.y && current.position.x == goal.x then
        some (reconstructPath current)
      else
        let closedSet' := getNodeKey current.position :: closedSet
        let neighbors :=
          getNeighbors current.position width height allowDiagonal isWalkable
        let openSet' :=
          neighbors.foldl (processNeighbor goal heuristic diagonalCost current closedSet') rest
        astarLoop goal width height allowDiagonal heuristic diagonalCost isWalkable
          fuel openSet' closedSet'

/-- `PathfindingHelper.findPath`: apply option defaults, validate the
endpoints, shortcut `start == goal`, then run the search loop from the
start node (`g = 0`, `h = f = heuristic(start, goal)`). -/
def findPath (start goal : Point) (width height : Int)
    (options : PathfindingOptions) : Option (List Point) :=
  let allowDiagonal := options.allowDiagonal.getD false
  let heuristic := options.heuristic.getD Heuristic.manhattan
  let maxIterations := options.maxIterations.getD 1000
  let diagonalCost := options.diagonalCost.getD (1414/1000)
  let isWalkable := options.isWalkable.getD (fun _ _ => true)
  if !(isInBounds start width height) || !(isInBounds goal width height) then
    none
  else if !(isWalkable start.y start.x) || !(isWalkable goal.y goal.x) then
    none
  else if start.y == goal.y && start.x == goal.x then
    some [start]
  else
    let startNode : PathNode :=
      PathNode.root start 0 (calculateHeuristic start goal heuristic)
        (calculateHeuristic start goal heuristic)
    astarLoop goal width height allowDiagonal heuristic diagonalCost isWalkable
      maxIterations [startNode] []

/-- `src/core/entity/entity.ts`: the slice of `Entity` that the pathfinding
queries observe — its stored `y`/`x` coordinates (the remaining fields,
`id`, `sprite` and `layer`, never reach `getPosition`). -/
structure Entity where
  y : Int
  x : Int

/-- `Entity.getPosition`. -/
def Entity.getPosition (e : Entity) : Point :=
  ⟨e.y, e.x⟩

/-- `src/types/resolution.ts` as used by `Scene.getResolution`. -/
structure Resolution where
  height : Int
  width : Int

/-- `src/core/scene.ts`: the slice of `Scene` that `findPathInScene`
observes — its extent and its entity list. -/
structure Scene where
  height : Int
  width : Int
  entities : List Entity

/-- `Scene.getResolution`. -/
def Scene.getResolution (s : Scene) : Resolution :=
  ⟨s.height, s.width⟩

/-- `Scene.getEntitiesAtPosition`: all entities whose position equals the
queried cell. -/
def Scene.getEntitiesAtPosition (s : Scene) (y x : Int) : List Entity :=
  s.entities.filter (fun e => e.getPosition.y == y && e.getPosition.x == x)

/-- `PathfindingHelper.findPathInScene`: wrap the options' walkability
predicate so that a cell is walkable only if the caller's predicate (when
present) accepts it and no entity occupies it, then delegate to `findPath`
at the scene's resolution. -/
def findPathInScene (start goal : Point) (scene : Scene)
    (options : PathfindingOptions) : Option (List Point) :=
  let resolution := scene.getResolution
  let isWalkable : Int → Int → Bool := fun y x =>
    if (match options.isWalkable with
        | some f => !(f y x)
        | none => false) then false
    else (scene.getEntitiesAtPosition y x).length == 0
  findPath start goal resolution.width resolution.height
    { options with isWalkable := some isWalkable }

/-- JS `Math.round` on an exact rational: round half toward `+∞`. -/
def roundQ (q : ℚ) : Int :=
  ⌊q + 1/2⌋

/-- `PathfindingHelper.hasLineOfSight`: sample `steps + 1` equally spaced
points on the segment, round each coordinate, and require all samples
walkable (`steps = 0` is vacuously clear). -/
def hasLineOfSight (start endP : Point) (isWalkable : Int → Int → Bool) : Bool :=
  let dx : Int := endP.x - start.x
  let dy : Int := endP.y - start.y
  let steps : Nat := max dx.natAbs dy.natAbs
  if steps = 0 then true
  else
    let stepX : ℚ := (dx : ℚ) / (steps : ℚ)
    let stepY : ℚ := (dy : ℚ) / (steps : ℚ)
    (List.range (steps + 1)).all fun i =>
      let x := roundQ ((start.x : ℚ) + stepX * (i : ℚ))
      let y := roundQ ((start.y : ℚ) + stepY * (i : ℚ))
      isWalkable y x

/-- The inner `for (let i = currentIndex + 2; ...)` scan of `smoothPath`:
starting from `far = currentIndex + 1`, advance `far` to each successive
index `i` (from `currentIndex + 2`) while `path[i]` is in line of sight of
`base`, stopping at the first failure or the end of the path. -/
def scanFarthest (path : List Point) (isWalkable : Int → Int → Bool)
    (base : Point) : Nat → Nat → Nat → Nat
  | 0, far, _ => far
  | fuel + 1, far, i =>
    if i < path.length then
      if hasLineOfSight base (path.getD i default) isWalkable then
        scanFarthest path isWalkable base fuel i (i + 1)
      else far
    else far

/-- The outer `while (currentIndex < path.length - 1)` loop of `smoothPath`,
by recursion on a budget that dominates the remaining indices: append the
farthest directly reachable waypoint, then continue from it. -/
def smoothLoop (path : List Point) (isWalkable : Int → Int → Bool) :
    Nat → Nat → List Point → List Point
  | 0, _, smoothed => smoothed
  | fuel + 1, currentIndex, smoothed =>
    if currentIndex < path.length - 1 then
      let farthestIndex :=
        scanFarthest path isWalkable (path.getD currentIndex default)
          path.length (currentIndex + 1) (currentIndex + 2)
      smoothLoop path isWalkable fuel farthestIndex
        (smoothed ++ [path.getD farthestIndex default])
    else smoothed

/-- `PathfindingHelper.smoothPath`: paths of length ≤ 2 are returned
unchanged; otherwise run the string-pulling loop seeded with `[path[0]]`. -/
def smoothPath (path : List Point) (isWalkable : Int → Int → Bool) : List Point :=
  if path.length ≤ 2 then path
  else smoothLoop path isWalkable path.length 0 [path.getD 0 default]

/-- `PathfindingHelper.getNextStep`: `findIndex` of the current position
(`none` models JS `-1`), then the source's three branches. -/
def getNextStep (path : List Point) (currentPosition : Point) : Option Point :=
  if path.length = 0 then none
  else
    match path.findIdx? (fun p =>
        p.y == currentPosition.y && p.x == currentPosition.x) with
    | none => some (path.getD 0 default)
    | some currentIndex =>
      if currentIndex ≥ path.length - 1 then none
      else some (path.getD (currentIndex + 1) default)

/-! ## Basic bridging lemmas -/

/-- Unfolding of the `isInBounds` boolean check into its four inequalities. -/
theorem isInBounds_iff {p : Point} {width height : Int} :
    isInBounds p width height = true ↔
      0 ≤ p.y ∧ p.y < height ∧ 0 ≤ p.x ∧ p.x < width := by
  simp [isInBounds, and_assoc]

/-- A fold that conditionally appends singletons is a `filter`. -/
theorem foldl_push_filter {α : Type _} (p : α → Bool) :
    ∀ (l acc : List α),
      l.foldl (fun a x => if p x then a ++ [x] else a) acc = acc ++ l.filter p
  | [], acc => by simp
  | x :: l, acc => by
    by_cases hx : p x = true <;>
      simp [List.filter_cons, hx, foldl_push_filter p l]

/-- The two-test variant of `foldl_push_filter`, matching the diagonal
branch of `getNeighbors`. -/
theorem foldl_push_filter2 {α : Type _} (p q : α → Bool) :
    ∀ (l acc : List α),
      l.foldl (fun a x => if p x then (if q x then a ++ [x] else a) else a) acc =
        acc ++ l.filter (fun x => p x && q x)
  | [], acc => by simp
  | x :: l, acc => by
    by_cases hp : p x = true <;> by_cases hq : q x = true <;>
      simp [List.filter_cons, hp, hq, foldl_push_filter2 p q l]

/-- `getNeighbors` is exactly: the in-bounds walkable cardinal candidates,
followed (only when `allowDiagonal`) by the in-bounds walkable diagonal
candidates having a walkable flanking cell. -/
theorem getNeighbors_characterization (position : Point) (width height : Int)
    (allowDiagonal : Bool) (isWalkable : Int → Int → Bool) :
    getNeighbors position width height allowDiagonal isWalkable =
      (cardinalCells position).filter
          (fun d => isInBounds d width height && isWalkable d.y d.x) ++
        (if allowDiagonal then
          (diagonalCells position).filter
            (fun d => (isInBounds d width height && isWalkable d.y d.x) &&
              (isWalkable d.y position.x || isWalkable position.y d.x))
        else []) := by
  cases allowDiagonal with
  | false =>
    unfold getNeighbors
    rw [if_neg (by simp)]
    rw [foldl_push_filter (fun d => isInBounds d width height && isWalkable d.y d.x)
      (cardinalCells position) []]
    simp
  | true =>
    unfold getNeighbors
    rw [if_pos rfl]
    rw [foldl_push_filter (fun d => isInBounds d width height && isWalkable d.y d.x)
      (cardinalCells position) []]
    rw [foldl_push_filter2 (fun d => isInBounds d width height && isWalkable d.y d.x)
      (fun d => isWalkable d.y position.x || isWalkable position.y d.x)
      (diagonalCells position)]
    simp


/-! ## Step and cell validity predicates used by the claims -/

/-- One legal move: each axis changes by at most 1, and both axes change
simultaneously only when diagonal movement was allowed. -/
def stepOK (allowDiagonal : Bool) (a b : Point) : Prop :=
  (b.y - a.y).natAbs ≤ 1 ∧ (b.x - a.x).natAbs ≤ 1 ∧
    ((b.y ≠ a.y ∧ b.x ≠ a.x) → allowDiagonal = true)

/-- A cell that is inside the grid extent and walkable. -/
def inWalk (width height : Int) (isWalkable : Int → Int → Bool) (p : Point) : Prop :=
  isInBounds p width height = true ∧ isWalkable p.y p.x = true

theorem cardinalCells_step {position d : Point} (hd : d ∈ cardinalCells position) :
    (d.y - position.y).natAbs ≤ 1 ∧ (d.x - position.x).natAbs ≤ 1 ∧
      ¬(d.y ≠ position.y ∧ d.x ≠ position.x) := by
  simp only [cardinalCells, List.mem_cons, List.not_mem_nil, or_false] at hd
  rcases hd with h | h | h | h <;> subst h <;>
    refine ⟨?_, ?_, ?_⟩ <;> simp

theorem diagonalCells_step {position d : Point} (hd : d ∈ diagonalCells position) :
    (d.y - position.y).natAbs ≤ 1 ∧ (d.x - position.x).natAbs ≤ 1 := by
  simp only [diagonalCells, List.mem_cons, List.not_mem_nil, or_false] at hd
  rcases hd with h | h | h | h <;> subst h <;>
    refine ⟨?_, ?_⟩ <;> simp

/-- Every cell produced by `getNeighbors` is in-bounds, walkable, and one
legal move away from the queried position. -/
theorem getNeighbors_mem {position d : Point} {width height : Int}
    {allowDiagonal : Bool} {isWalkable : Int → Int → Bool}
    (hd : d ∈ getNeighbors position width height allowDiagonal isWalkable) :
    inWalk width height isWalkable d ∧ stepOK allowDiagonal position d := by
  rw [getNeighbors_characterization] at hd
  rcases List.mem_append.1 hd with hc | hdg
  · rcases List.mem_filter.1 hc with ⟨hmem, hpred⟩
    rcases Bool.and_eq_true_iff.1 hpred with ⟨hb, hw⟩
    rcases cardinalCells_step hmem with ⟨h1, h2, h3⟩
    exact ⟨⟨hb, hw⟩, h1, h2, fun hc' => absurd hc' h3⟩
  · cases allowDiagonal with
    | false => simp at hdg
    | true =>
      rw [if_pos rfl] at hdg
      rcases List.mem_filter.1 hdg with ⟨hmem, hpred⟩
      rcases Bool.and_eq_true_iff.1 hpred with ⟨hbw, -⟩
      rcases Bool.and_eq_true_iff.1 hbw with ⟨hb, hw⟩
      rcases diagonalCells_step hmem with ⟨h1, h2⟩
      exact ⟨⟨hb, hw⟩, h1, h2, fun _ => rfl⟩

/-! ## Parent-chain invariant and `reconstructPath` -/

/-- The per-node invariant maintained for every node the search loop ever
places in the open set: its cell is in-bounds and walkable, its parent
chain starts at `startP`, and each link of the chain is a legal move. -/
def chainInv (startP : Point) (width height : Int) (allowDiagonal : Bool)
    (isWalkable : Int → Int → Bool) : PathNode → Prop
  | .root pos _ _ _ => pos = startP ∧ inWalk width height isWalkable pos
  | .step pos _ _ _ parent =>
      inWalk width height isWalkable pos ∧
        stepOK allowDiagonal parent.position pos ∧
        chainInv startP width height allowDiagonal isWalkable parent

theorem reconstructAux_eq (n : PathNode) :
    ∀ acc : List Point, reconstructAux n acc = reconstructAux n [] ++ acc := by
  induction n with
  | root pos g h f => intro acc; rfl
  | step pos g h f parent ih =>
    intro acc
    show reconstructAux parent (pos :: acc) = reconstructAux parent [pos] ++ acc
    rw [ih (pos :: acc), ih [pos]]
    simp

theorem reconstructPath_root (pos : Point) (g h f : ℚ) :
    reconstructPath (.root pos g h f) = [pos] := rfl

theorem reconstructPath_step (pos : Point) (g h f : ℚ) (parent : PathNode) :
    reconstructPath (.step pos g h f parent) = reconstructPath parent ++ [pos] := by
  show reconstructAux parent [pos] = reconstructAux parent [] ++ [pos]
  exact reconstructAux_eq parent [pos]

theorem reconstructPath_ne_nil (n : PathNode) : reconstructPath n ≠ [] := by
  cases n with
  | root pos g h f => simp [reconstructPath_root]
  | step pos g h f parent => simp [reconstructPath_step]

theorem reconstructPath_getLast? (n : PathNode) :
    (reconstructPath n).getLast? = some n.position := by
  cases n with
  | root pos g h f => simp [reconstructPath_root, PathNode.position]
  | step pos g h f parent =>
    simp [reconstructPath_step, List.getLast?_concat, PathNode.position]

theorem reconstructPath_head? {startP : Point} {width height : Int}
    {allowDiagonal : Bool} {isWalkable : Int → Int → Bool} {n : PathNode}
    (hn : chainInv startP width height allowDiagonal isWalkable n) :
    (reconstructPath n).head? = some startP := by
  induction n with
  | root pos g h f =>
    rcases hn with ⟨hpos, -⟩
    simp [reconstructPath_root, hpos]
  | step pos g h f parent ih =>
    rcases hn with ⟨-, -, hpar⟩
    rw [reconstructPath_step, List.head?_append, ih hpar]
    rfl

theorem reconstructPath_chain' {startP : Point} {width height : Int}
    {allowDiagonal : Bool} {isWalkable : Int → Int → Bool} {n : PathNode}
    (hn : chainInv startP width height allowDiagonal isWalkable n) :
    List.Chain' (stepOK allowDiagonal) (reconstructPath n) := by
  induction n with
  | root pos g h f => simp [reconstructPath_root]
  | step pos g h f parent ih =>
    rcases hn with ⟨-, hstep, hpar⟩
    rw [reconstructPath_step]
    refine List.chain'_append.2 ⟨ih hpar, by simp, ?_⟩
    intro a ha b hb
    rw [reconstructPath_getLast? parent] at ha
    simp only [List.head?_cons, Option.mem_def, Option.some.injEq] at ha hb
    subst ha; subst hb
    exact hstep

theorem reconstructPath_mem {startP : Point} {width height : Int}
    {allowDiagonal : Bool} {isWalkable : Int → Int → Bool} {n : PathNode}
    (hn : chainInv startP width height allowDiagonal isWalkable n) :
    ∀ p ∈ reconstructPath n, inWalk width height isWalkable p := by
  induction n with
  | root pos g h f =>
    rcases hn with ⟨-, hw⟩
    intro p hp
    rw [reconstructPath_root] at hp
    simp only [List.mem_singleton] at hp
    exact hp ▸ hw
  | step pos g h f parent ih =>
    rcases hn with ⟨hw, -, hpar⟩
    intro p hp
    rw [reconstructPath_step] at hp
    rcases List.mem_append.1 hp with h' | h'
    · exact ih hpar p h'
    · simp only [List.mem_singleton] at h'
      exact h' ▸ hw

/-! ## Open-set invariant preservation through one loop iteration -/

theorem updateFirst_mem {p : PathNode → Bool} {fn : PathNode → PathNode}
    {n : PathNode} :
    ∀ {l : List PathNode}, n ∈ updateFirst p fn l →
      n ∈ l ∨ ∃ m ∈ l, p m = true ∧ n = fn m
  | [], h => by simp [updateFirst] at h
  | m :: rest, h => by
    rw [updateFirst] at h
    by_cases hm : p m = true
    · rw [if_pos hm] at h
      rcases List.mem_cons.1 h with h' | h'
      · exact Or.inr ⟨m, List.mem_cons_self m rest, hm, h'⟩
      · exact Or.inl (List.mem_cons_of_mem m h')
    · rw [if_neg hm] at h
      rcases List.mem_cons.1 h with h' | h'
      · exact Or.inl (h' ▸ List.mem_cons_self m rest)
      · rcases updateFirst_mem h' with h'' | ⟨m', hm', hpm', hn⟩
        · exact Or.inl (List.mem_cons_of_mem m h'')
        · exact Or.inr ⟨m', List.mem_cons_of_mem m hm', hpm', hn⟩

/-- `processNeighbor` when the neighbor's key is already closed: skip. -/
theorem processNeighbor_closed {goal : Point} {heuristic : Heuristic}
    {diagonalCost : ℚ} {current : PathNode} {closedSet : List String}
    {acc : List PathNode} {neighborPos : Point}
    (hcl : getNodeKey neighborPos ∈ closedSet) :
    processNeighbor goal heuristic diagonalCost current closedSet acc neighborPos = acc := by
  simp [processNeighbor, hcl]

/-- `processNeighbor` when the neighbor is not closed and not yet open:
append a fresh node whose parent is `current`. -/
theorem processNeighbor_new {goal : Point} {heuristic : Heuristic}
    {diagonalCost : ℚ} {current : PathNode} {closedSet : List String}
    {acc : List PathNode} {neighborPos : Point}
    (hcl : getNodeKey neighborPos ∉ closedSet)
    (hfind : acc.find? (fun n =>
      n.position.y == neighborPos.y && n.position.x == neighborPos.x) = none) :
    processNeighbor goal heuristic diagonalCost current closedSet acc neighborPos =
      acc ++ [PathNode.step neighborPos
        (current.g + (if neighborPos.y ≠ current.position.y ∧ neighborPos.x ≠ current.position.x
          then diagonalCost else 1))
        (calculateHeuristic neighborPos goal heuristic)
        ((current.g + (if neighborPos.y ≠ current.position.y ∧ neighborPos.x ≠ current.position.x
          then diagonalCost else 1)) + calculateHeuristic neighborPos goal heuristic)
        current] := by
  simp [processNeighbor, hcl, hfind]

/-- `processNeighbor` when the neighbor already has an open node: update it
in place when the tentative cost improves on it, otherwise leave the open
list unchanged. -/
theorem processNeighbor_found {goal : Point} {heuristic : Heuristic}
    {diagonalCost : ℚ} {current : PathNode} {closedSet : List String}
    {acc : List PathNode} {neighborPos : Point} {nbr : PathNode}
    (hcl : getNodeKey neighborPos ∉ closedSet)
    (hfind : acc.find? (fun n =>
      n.position.y == neighborPos.y && n.position.x == neighborPos.x) = some nbr) :
    processNeighbor goal heuristic diagonalCost current closedSet acc neighborPos =
      if current.g + (if neighborPos.y ≠ current.position.y ∧ neighborPos.x ≠ current.position.x
          then diagonalCost else 1) < nbr.g then
        updateFirst
          (fun n => n.position.y == neighborPos.y && n.position.x == neighborPos.x)
          (fun n => PathNode.step n.position
            (current.g + (if neighborPos.y ≠ current.position.y ∧ neighborPos.x ≠ current.position.x
              then diagonalCost else 1))
            n.h
            ((current.g + (if neighborPos.y ≠ current.position.y ∧ neighborPos.x ≠ current.position.x
              then diagonalCost else 1)) + n.h)
            current)
          acc
      else acc := by
  simp [processNeighbor, hcl, hfind]

/-- `processNeighbor` preserves the chain invariant of the open list,
provided the current node satisfies it and the neighbor cell really came
from `getNeighbors current.position`. -/
theorem processNeighbor_inv {startP goal : Point} {width height : Int}
    {allowDiagonal : Bool} {isWalkable : Int → Int → Bool}
    {heuristic : Heuristic} {diagonalCost : ℚ} {current : PathNode}
    {closedSet : List String} {acc : List PathNode} {neighborPos : Point}
    (hcur : chainInv startP width height allowDiagonal isWalkable current)
    (hacc : ∀ n ∈ acc, chainInv startP width height allowDiagonal isWalkable n)
    (hnb : inWalk width height isWalkable neighborPos ∧
      stepOK allowDiagonal current.position neighborPos) :
    ∀ n ∈ processNeighbor goal heuristic diagonalCost current closedSet acc neighborPos,
      chainInv startP width height allowDiagonal isWalkable n := by
  intro n hn
  by_cases hcl : getNodeKey neighborPos ∈ closedSet
  · rw [processNeighbor_closed hcl] at hn
    exact hacc n hn
  · rcases hfind : acc.find? (fun n =>
        n.position.y == neighborPos.y && n.position.x == neighborPos.x) with _ | nbr
    · rw [processNeighbor_new hcl hfind] at hn
      rcases List.mem_append.1 hn with h' | h'
      · exact hacc n h'
      · simp only [List.mem_singleton] at h'
        subst h'
        exact ⟨hnb.1, hnb.2, hcur⟩
    · rw [processNeighbor_found hcl hfind] at hn
      by_cases hlt : current.g +
          (if neighborPos.y ≠ current.position.y ∧ neighborPos.x ≠ current.position.x
            then diagonalCost else 1) < nbr.g
      swap
      · rw [if_neg hlt] at hn
        exact hacc n hn
      rw [if_pos hlt] at hn
      · rcases updateFirst_mem hn with h' | ⟨m, hm, hpm, hfn⟩
        · exact hacc n h'
        · subst hfn
          have hmp : m.position = neighborPos := by
            simp only [Bool.and_eq_true, beq_iff_eq] at hpm
            exact Point.ext hpm.1 hpm.2
          exact ⟨hmp ▸ hnb.1, hmp ▸ hnb.2, hcur⟩

/-- The neighbor fold of one loop iteration preserves the open-list chain
invariant. -/
theorem foldl_processNeighbor_inv {startP goal : Point} {width height : Int}
    {allowDiagonal : Bool} {isWalkable : Int → Int → Bool}
    {heuristic : Heuristic} {diagonalCost : ℚ} {current : PathNode}
    {closedSet : List String}
    (hcur : chainInv startP width height allowDiagonal isWalkable current) :
    ∀ (nl : List Point) (acc : List PathNode),
      (∀ d ∈ nl, inWalk width height isWalkable d ∧
        stepOK allowDiagonal current.position d) →
      (∀ n ∈ acc, chainInv startP width height allowDiagonal isWalkable n) →
      ∀ n ∈ nl.foldl (processNeighbor goal heuristic diagonalCost current closedSet) acc,
        chainInv startP width height allowDiagonal isWalkable n
  | [], acc, _, hacc => hacc
  | d :: nl, acc, hnl, hacc => by
    intro n hn
    rw [List.foldl_cons] at hn
    exact foldl_processNeighbor_inv hcur nl
      (processNeighbor goal heuristic diagonalCost current closedSet acc d)
      (fun d' hd' => hnl d' (List.mem_cons_of_mem d hd'))
      (processNeighbor_inv hcur hacc (hnl d (List.mem_cons_self d nl)))
      n hn

/-! ## The search loop -/

/-- `astarLoop` with an exhausted iteration budget fails immediately. -/
theorem astarLoop_zero (goal : Point) (width height : Int) (allowDiagonal : Bool)
    (heuristic : Heuristic) (diagonalCost : ℚ) (isWalkable : Int → Int → Bool)
    (openSet : List PathNode) (closedSet : List String) :
    astarLoop goal width height allowDiagonal heuristic diagonalCost isWalkable
      0 openSet closedSet = none := rfl

/-- `astarLoop` when the sorted open list is empty: the loop guard fails. -/
theorem astarLoop_succ_nil {goal : Point} {width height : Int}
    {allowDiagonal : Bool} {heuristic : Heuristic} {diagonalCost : ℚ}
    {isWalkable : Int → Int → Bool} {fuel : Nat} {openSet : List PathNode}
    {closedSet : List String}
    (hsort : List.mergeSort openSet (fun a b => a.f ≤ b.f) = []) :
    astarLoop goal width height allowDiagonal heuristic diagonalCost isWalkable
      (fuel + 1) openSet closedSet = none := by
  simp [astarLoop, hsort]

/-- `astarLoop` when the extracted node is the goal: reconstruct. -/
theorem astarLoop_succ_goal {goal : Point} {width height : Int}
    {allowDiagonal : Bool} {heuristic : Heuristic} {diagonalCost : ℚ}
    {isWalkable : Int → Int → Bool} {fuel : Nat} {openSet : List PathNode}
    {closedSet : List String} {current : PathNode} {rest : List PathNode}
    (hsort : List.mergeSort openSet (fun a b => a.f ≤ b.f) = current :: rest)
    (hgoal : (current.position.y == goal.y && current.position.x == goal.x) = true) :
    astarLoop goal width height allowDiagonal heuristic diagonalCost isWalkable
      (fuel + 1) openSet closedSet = some (reconstructPath current) := by
  simp [astarLoop, hsort, hgoal]

/-- `astarLoop` when the extracted node is not the goal: close its key,
fold its neighbors into the open list, and continue with one unit of budget
spent. -/
theorem astarLoop_succ_cont {goal : Point} {width height : Int}
    {allowDiagonal : Bool} {heuristic : Heuristic} {diagonalCost : ℚ}
    {isWalkable : Int → Int → Bool} {fuel : Nat} {openSet : List PathNode}
    {closedSet : List String} {current : PathNode} {rest : List PathNode}
    (hsort : List.mergeSort openSet (fun a b => a.f ≤ b.f) = current :: rest)
    (hgoal : (current.position.y == goal.y && current.position.x == goal.x) = false) :
    astarLoop goal width height allowDiagonal heuristic diagonalCost isWalkable
      (fuel + 1) openSet closedSet =
      astarLoop goal width height allowDiagonal heuristic diagonalCost isWalkable
        fuel
        ((getNeighbors current.position width height allowDiagonal isWalkable).foldl
          (processNeighbor goal heuristic diagonalCost current
            (getNodeKey current.position :: closedSet))
          rest)
        (getNodeKey current.position :: closedSet) := by
  simp [astarLoop, hsort, hgoal]

/-- Main invariant theorem for the search loop: starting from any open list
all of whose nodes satisfy the chain invariant, a successful run returns a
path from `startP` to `goal` whose cells are all in-bounds and walkable and
whose consecutive elements are legal moves. -/
theorem astarLoop_some {startP goal : Point} {width height : Int}
    {allowDiagonal : Bool} {heuristic : Heuristic} {diagonalCost : ℚ}
    {isWalkable : Int → Int → Bool} :
    ∀ (fuel : Nat) (openSet : List PathNode) (closedSet : List String)
      (path : List Point),
      (∀ n ∈ openSet, chainInv startP width height allowDiagonal isWalkable n) →
      astarLoop goal width height allowDiagonal heuristic diagonalCost isWalkable
        fuel openSet closedSet = some path →
      path.head? = some startP ∧ path.getLast? = some goal ∧
        List.Chain' (stepOK allowDiagonal) path ∧
        ∀ p ∈ path, inWalk width height isWalkable p := by
  intro fuel
  induction fuel with
  | zero =>
    intro openSet closedSet path _ hrun
    rw [astarLoop_zero] at hrun
    exact absurd hrun (by simp)
  | succ fuel ih =>
    intro openSet closedSet path hinv hrun
    rcases hsort : List.mergeSort openSet (fun a b => a.f ≤ b.f) with _ | ⟨current, rest⟩
    · rw [astarLoop_succ_nil hsort] at hrun
      exact absurd hrun (by simp)
    · have hsinv : ∀ n ∈ current :: rest,
          chainInv startP width height allowDiagonal isWalkable n := by
        intro n hn
        exact hinv n (List.mem_mergeSort.1 (hsort ▸ hn))
      have hcur := hsinv current (List.mem_cons_self current rest)
      cases hgoal : (current.position.y == goal.y && current.position.x == goal.x) with
      | true =>
        rw [astarLoop_succ_goal hsort hgoal] at hrun
        obtain rfl : reconstructPath current = path := Option.some.inj hrun
        have hpos : current.position = goal := by
          simp only [Bool.and_eq_true, beq_iff_eq] at hgoal
          exact Point.ext hgoal.1 hgoal.2
        exact ⟨reconstructPath_head? hcur, hpos ▸ reconstructPath_getLast? current,
          reconstructPath_chain' hcur, reconstructPath_mem hcur⟩
      | false =>
        rw [astarLoop_succ_cont hsort hgoal] at hrun
        refine ih _ _ _ ?_ hrun
        refine foldl_processNeighbor_inv hcur _ _ ?_ ?_
        · intro d hd
          exact getNeighbors_mem hd
        · intro n hn
          exact hsinv n (List.mem_cons_of_mem current hn)

/-! ## `findPath` branch equations -/

/-- `findPath` fails immediately when start or goal is out of bounds. -/
theorem findPath_oob {start goal : Point} {width height : Int}
    {options : PathfindingOptions}
    (hb : (!(isInBounds start width height) || !(isInBounds goal width height)) = true) :
    findPath start goal width height options = none := by
  simp only [findPath]
  rw [if_pos hb]

/-- `findPath` fails immediately when start or goal is non-walkable. -/
theorem findPath_notwalk {start goal : Point} {width height : Int}
    {options : PathfindingOptions}
    (hb : (!(isInBounds start width height) || !(isInBounds goal width height)) = false)
    (hw : (!((options.isWalkable.getD (fun _ _ => true)) start.y start.x) ||
        !((options.isWalkable.getD (fun _ _ => true)) goal.y goal.x)) = true) :
    findPath start goal width height options = none := by
  simp only [findPath]
  rw [if_neg (by simp [hb]), if_pos hw]

/-- `findPath` returns the singleton path when the two endpoints coincide
(and survived validation). -/
theorem findPath_same {start goal : Point} {width height : Int}
    {options : PathfindingOptions}
    (hb : (!(isInBounds start width height) || !(isInBounds goal width height)) = false)
    (hw : (!((options.isWalkable.getD (fun _ _ => true)) start.y start.x) ||
        !((options.isWalkable.getD (fun _ _ => true)) goal.y goal.x)) = false)
    (hsg : (start.y == goal.y && start.x == goal.x) = true) :
    findPath start goal width height options = some [start] := by
  simp only [findPath]
  rw [if_neg (by simp [hb]), if_neg (by simp [hw]), if_pos hsg]

/-- `findPath` past validation with distinct endpoints: run the loop with
the defaulted options and the start node as the sole open node. -/
theorem findPath_run {start goal : Point} {width height : Int}
    {options : PathfindingOptions}
    (hb : (!(isInBounds start width height) || !(isInBounds goal width height)) = false)
    (hw : (!((options.isWalkable.getD (fun _ _ => true)) start.y start.x) ||
        !((options.isWalkable.getD (fun _ _ => true)) goal.y goal.x)) = false)
    (hsg : (start.y == goal.y && start.x == goal.x) = false) :
    findPath start goal width height options =
      astarLoop goal width height (options.allowDiagonal.getD false)
        (options.heuristic.getD Heuristic.manhattan)
        (options.diagonalCost.getD (1414/1000))
        (options.isWalkable.getD (fun _ _ => true))
        (options.maxIterations.getD 1000)
        [PathNode.root start 0
          (calculateHeuristic start goal (options.heuristic.getD Heuristic.manhattan))
          (calculateHeuristic start goal (options.heuristic.getD Heuristic.manhattan))]
        [] := by
  simp only [findPath]
  rw [if_neg (by simp [hb]), if_neg (by simp [hw]), if_neg (by simp [hsg])]

/-- The two validation checks passing means start and goal are both
in-bounds and walkable. -/
theorem findPath_valid_cells {start goal : Point} {width height : Int}
    {options : PathfindingOptions}
    (hb : (!(isInBounds start width height) || !(isInBounds goal width height)) = false)
    (hw : (!((options.isWalkable.getD (fun _ _ => true)) start.y start.x) ||
        !((options.isWalkable.getD (fun _ _ => true)) goal.y goal.x)) = false) :
    inWalk width height (options.isWalkable.getD (fun _ _ => true)) start ∧
      inWalk width height (options.isWalkable.getD (fun _ _ => true)) goal := by
  simp only [Bool.or_eq_false_iff, Bool.not_eq_false'] at hb hw
  exact ⟨⟨hb.1, hw.1⟩, ⟨hb.2, hw.2⟩⟩

/-- Every successful `findPath` call returns a path from `start` to `goal`
made of legal moves through in-bounds walkable cells. -/
theorem findPath_some_props {start goal : Point} {width height : Int}
    {options : PathfindingOptions} {path : List Point}
    (hrun : findPath start goal width height options = some path) :
    path.head? = some start ∧ path.getLast? = some goal ∧
      List.Chain' (stepOK (options.allowDiagonal.getD false)) path ∧
      ∀ p ∈ path,
        inWalk width height (options.isWalkable.getD (fun _ _ => true)) p := by
  cases hb : (!(isInBounds start width height) || !(isInBounds goal width height)) with
  | true =>
    rw [findPath_oob hb] at hrun
    exact absurd hrun (by simp)
  | false =>
  cases hw : (!((options.isWalkable.getD (fun _ _ => true)) start.y start.x) ||
      !((options.isWalkable.getD (fun _ _ => true)) goal.y goal.x)) with
  | true =>
    rw [findPath_notwalk hb hw] at hrun
    exact absurd hrun (by simp)
  | false =>
  cases hsg : (start.y == goal.y && start.x == goal.x) with
  | true =>
    rw [findPath_same hb hw hsg] at hrun
    obtain rfl : [start] = path := Option.some.inj hrun
    have hgoal : start = goal := by
      simp only [Bool.and_eq_true, beq_iff_eq] at hsg
      exact Point.ext hsg.1 hsg.2
    refine ⟨rfl, by simp [← hgoal], by simp, ?_⟩
    intro p hp
    simp only [List.mem_singleton] at hp
    exact hp ▸ (findPath_valid_cells hb hw).1
  | false =>
    rw [findPath_run hb hw hsg] at hrun
    refine astarLoop_some _ _ _ _ ?_ hrun
    intro n hn
    simp only [List.mem_singleton] at hn
    subst hn
    exact ⟨rfl, (findPath_valid_cells hb hw).1⟩

/-- C1: every non-null path returned by `findPath` begins with `start`,
ends with `goal`, and each pair of consecutive coordinates differs by at
most 1 in the y axis and at most 1 in the x axis, differing in both axes
simultaneously only if the `allowDiagonal` option was set. -/
theorem claim_C1_findPath_endpoints_and_steps
    (start goal : Point) (width height : Int) (options : PathfindingOptions)
    (path : List Point)
    (hrun : findPath start goal width height options = some path) :
    path.head? = some start ∧ path.getLast? = some goal ∧
      List.Chain'
        (fun a b => (b.y - a.y).natAbs ≤ 1 ∧ (b.x - a.x).natAbs ≤ 1 ∧
          ((b.y ≠ a.y ∧ b.x ≠ a.x) → options.allowDiagonal.getD false = true))
        path := by
  obtain ⟨h1, h2, h3, -⟩ := findPath_some_props hrun
  exact ⟨h1, h2, h3⟩

set_option maxRecDepth 100000 in
/-- Witness for C1 on a concrete successful search on a 2×1 grid. -/
theorem claim_C1_findPath_endpoints_and_steps_witness :
    ([(⟨0, 0⟩ : Point), ⟨0, 1⟩].head? = some (⟨0, 0⟩ : Point)) ∧
      ([(⟨0, 0⟩ : Point), ⟨0, 1⟩].getLast? = some (⟨0, 1⟩ : Point)) ∧
      List.Chain'
        (fun a b => (b.y - a.y).natAbs ≤ 1 ∧ (b.x - a.x).natAbs ≤ 1 ∧
          ((b.y ≠ a.y ∧ b.x ≠ a.x) →
            (({} : PathfindingOptions).allowDiagonal.getD false) = true))
        [(⟨0, 0⟩ : Point), ⟨0, 1⟩] :=
  claim_C1_findPath_endpoints_and_steps ⟨0, 0⟩ ⟨0, 1⟩ 2 1 {} [⟨0, 0⟩, ⟨0, 1⟩]
    (by with_unfolding_all decide)

/-- C10: every coordinate of a non-null path returned by `findPath` is
in-bounds and walkable, not only the endpoints. -/
theorem claim_C10_path_cells_inbounds_walkable
    (start goal : Point) (width height : Int) (options : PathfindingOptions)
    (path : List Point)
    (hrun : findPath start goal width height options = some path) :
    ∀ p ∈ path, isInBounds p width height = true ∧
      (options.isWalkable.getD (fun _ _ => true)) p.y p.x = true := by
  intro p hp
  exact (findPath_some_props hrun).2.2.2 p hp

set_option maxRecDepth 100000 in
/-- Witness for C10 on a concrete successful search on a 2×1 grid. -/
theorem claim_C10_path_cells_inbounds_walkable_witness :
    (isInBounds ⟨0, 0⟩ 2 1 = true ∧
      (({} : PathfindingOptions).isWalkable.getD (fun _ _ => true)) 0 0 = true) ∧
      (isInBounds ⟨0, 1⟩ 2 1 = true ∧
        (({} : PathfindingOptions).isWalkable.getD (fun _ _ => true)) 0 1 = true) :=
  ⟨claim_C10_path_cells_inbounds_walkable ⟨0, 0⟩ ⟨0, 1⟩ 2 1 {} [⟨0, 0⟩, ⟨0, 1⟩]
      (by with_unfolding_all decide) ⟨0, 0⟩ (by simp),
    claim_C10_path_cells_inbounds_walkable ⟨0, 0⟩ ⟨0, 1⟩ 2 1 {} [⟨0, 0⟩, ⟨0, 1⟩]
      (by with_unfolding_all decide) ⟨0, 1⟩ (by simp)⟩

/-- C2: `findPath(p, p, …)` returns the singleton path `[p]` when `p` is
inside the half-open extent and walkable, and `null` when `p` is out of
bounds or non-walkable. -/
theorem claim_C2_findPath_trivial (p : Point) (width height : Int)
    (options : PathfindingOptions) :
    ((0 ≤ p.y ∧ p.y < height ∧ 0 ≤ p.x ∧ p.x < width) →
      (options.isWalkable.getD (fun _ _ => true)) p.y p.x = true →
      findPath p p width height options = some [p]) ∧
    ((¬(0 ≤ p.y ∧ p.y < height ∧ 0 ≤ p.x ∧ p.x < width) ∨
      (options.isWalkable.getD (fun _ _ => true)) p.y p.x = false) →
      findPath p p width height options = none) := by
  constructor
  · intro hin hwalk
    have hb := isInBounds_iff.2 hin
    exact findPath_same (by simp [hb]) (by simp [hwalk]) (by simp)
  · intro h
    rcases h with hout | hwalk
    · have hb : isInBounds p width height = false := by
        cases hbb : isInBounds p width height with
        | false => rfl
        | true => exact absurd (isInBounds_iff.1 hbb) hout
      exact findPath_oob (by simp [hb])
    · cases hbb : isInBounds p width height with
      | false => exact findPath_oob (by simp [hbb])
      | true => exact findPath_notwalk (by simp [hbb]) (by simp [hwalk])

/-- Witness for C2: the 1×1 grid succeeds at its only cell, and the empty
extent fails. -/
theorem claim_C2_findPath_trivial_witness :
    findPath ⟨0, 0⟩ ⟨0, 0⟩ 1 1 {} = some [⟨0, 0⟩] ∧
      findPath ⟨0, 0⟩ ⟨0, 0⟩ 0 0 {} = none :=
  ⟨(claim_C2_findPath_trivial ⟨0, 0⟩ 1 1 {}).1 (by decide) rfl,
    (claim_C2_findPath_trivial ⟨0, 0⟩ 0 0 {}).2 (Or.inl (by decide))⟩

/-- C5: `findPath` is a total function into `Option`: it returns a path or
`none`, never anything else; invalid endpoints give an immediate `none`
before any search state is built, and a non-positive grid extent in
particular forces `none`. -/
theorem claim_C5_never_throws_validation (start goal : Point)
    (width height : Int) (options : PathfindingOptions) :
    (findPath start goal width height options = none ∨
      ∃ path, findPath start goal width height options = some path) ∧
    ((isInBounds start width height = false ∨ isInBounds goal width height = false ∨
      (options.isWalkable.getD (fun _ _ => true)) start.y start.x = false ∨
      (options.isWalkable.getD (fun _ _ => true)) goal.y goal.x = false) →
      findPath start goal width height options = none) ∧
    (width ≤ 0 ∨ height ≤ 0 → findPath start goal width height options = none) := by
  have hbranch : (isInBounds start width height = false ∨
      isInBounds goal width height = false ∨
      (options.isWalkable.getD (fun _ _ => true)) start.y start.x = false ∨
      (options.isWalkable.getD (fun _ _ => true)) goal.y goal.x = false) →
      findPath start goal width height options = none := by
    intro h
    rcases h with hs | hg | hws | hwg
    · exact findPath_oob (by simp [hs])
    · exact findPath_oob (by simp [hg])
    · cases hbs : isInBounds start width height with
      | false => exact findPath_oob (by simp [hbs])
      | true =>
        cases hbg : isInBounds goal width height with
        | false => exact findPath_oob (by simp [hbg])
        | true => exact findPath_notwalk (by simp [hbs, hbg]) (by simp [hws])
    · cases hbs : isInBounds start width height with
      | false => exact findPath_oob (by simp [hbs])
      | true =>
        cases hbg : isInBounds goal width height with
        | false => exact findPath_oob (by simp [hbg])
        | true => exact findPath_notwalk (by simp [hbs, hbg]) (by simp [hwg])
  refine ⟨?_, hbranch, ?_⟩
  · cases hres : findPath start goal width height options with
    | none => exact Or.inl rfl
    | some path => exact Or.inr ⟨path, rfl⟩
  · intro h
    refine hbranch (Or.inl ?_)
    cases hbs : isInBounds start width height with
    | false => rfl
    | true =>
      have := isInBounds_iff.1 hbs
      exact absurd this (by omega)

/-- Witness for C5 at a degenerate extent: the 0×0 grid rejects any search,
discharging both the invalid-endpoint and the non-positive-extent
hypotheses. -/
theorem claim_C5_never_throws_validation_witness :
    findPath ⟨0, 0⟩ ⟨0, 0⟩ 0 0 {} = none ∧ findPath ⟨0, 0⟩ ⟨0, 0⟩ 0 5 {} = none :=
  ⟨(claim_C5_never_throws_validation ⟨0, 0⟩ ⟨0, 0⟩ 0 0 {}).2.2 (Or.inl (by decide)),
    (claim_C5_never_throws_validation ⟨0, 0⟩ ⟨0, 0⟩ 0 5 {}).2.1
      (Or.inl (by decide))⟩

set_option maxRecDepth 100000 in
/-- C4: the search loop consumes one unit of the iteration budget per
iteration and fails as soon as the budget is exhausted (the loop guard
`iterations < maxIterations` is modelled by the remaining budget reaching
zero); concretely, on a 2×1 grid whose goal needs a second expansion,
`maxIterations := 1` yields `none` even though the default budget finds the
path. -/
theorem claim_C4_iteration_budget :
    (∀ (goal : Point) (width height : Int) (allowDiagonal : Bool)
      (heuristic : Heuristic) (diagonalCost : ℚ) (isWalkable : Int → Int → Bool)
      (openSet : List PathNode) (closedSet : List String),
      astarLoop goal width height allowDiagonal heuristic diagonalCost isWalkable
        0 openSet closedSet = none) ∧
    findPath ⟨0, 0⟩ ⟨0, 1⟩ 2 1 { maxIterations := some 1 } = none ∧
    findPath ⟨0, 0⟩ ⟨0, 1⟩ 2 1 {} = some [⟨0, 0⟩, ⟨0, 1⟩] :=
  ⟨fun goal width height allowDiagonal heuristic diagonalCost isWalkable
      openSet closedSet =>
    astarLoop_zero goal width height allowDiagonal heuristic diagonalCost
      isWalkable openSet closedSet,
    by with_unfolding_all decide, by with_unfolding_all decide⟩

/-- C3: the Neighbor Generator returns exactly the in-bounds walkable
cardinal offsets (up, right, down, left, in that order), followed — only
when `allowDiagonal` is set — by the in-bounds walkable diagonal offsets
whose two flanking orthogonal cells are not both blocked. -/
theorem claim_C3_getNeighbors_exact (position : Point) (width height : Int)
    (allowDiagonal : Bool) (isWalkable : Int → Int → Bool) :
    getNeighbors position width height allowDiagonal isWalkable =
      (cardinalCells position).filter
          (fun d => isInBounds d width height && isWalkable d.y d.x) ++
        (if allowDiagonal then
          (diagonalCells position).filter
            (fun d => (isInBounds d width height && isWalkable d.y d.x) &&
              (isWalkable d.y position.x || isWalkable position.y d.x))
        else []) :=
  getNeighbors_characterization position width height allowDiagonal isWalkable

set_option maxRecDepth 100000 in
/-- Counterexample for C6: at `a = (0,0)`, `b = (1,1)` the Octile branch
returns the literal `1.414 = 707/500`, which is not `√2` (their squares
differ), so the evaluator does not return
`|dy| + |dx| + (√2 − 2)·min(|dy|, |dx|)` with a real `√2`. -/
theorem claim_C6_counterexample_octile_sqrt2 :
    ¬ (((calculateHeuristic ⟨0, 0⟩ ⟨1, 1⟩ .octile : ℚ) : ℝ) =
      1 + 1 + (Real.sqrt 2 - 2) * min 1 1) := by
  intro h
  have h1 : calculateHeuristic ⟨0, 0⟩ ⟨1, 1⟩ .octile = 707/500 := by
    with_unfolding_all decide
  rw [h1] at h
  have h2 : (1 : ℝ) + 1 + (Real.sqrt 2 - 2) * min 1 1 = Real.sqrt 2 := by
    simp
    ring
  rw [h2] at h
  have h3 : (((707 : ℚ)/500 : ℚ) : ℝ) ^ 2 = 2 := by
    rw [h, Real.sq_sqrt (by norm_num : (2 : ℝ) ≥ 0)]
  norm_num at h3

/-- C6 (amended): the Octile selector returns
`|dx| + |dy| + (1.414 − 2)·min(|dx|, |dy|)`, with the diagonal unit fixed
at the literal `1.414` (the code's `√2` approximation); the evaluator takes
no `diagonalCost` input at all, so the caller-configured `diagonalCost`
option cannot influence it. -/
theorem claim_C6_octile_formula (a b : Point) :
    calculateHeuristic a b .octile =
      ((b.y - a.y).natAbs : ℚ) + ((b.x - a.x).natAbs : ℚ) +
        (1414/1000 - 2) *
          min ((b.y - a.y).natAbs : ℚ) ((b.x - a.x).natAbs : ℚ) := by
  simp only [calculateHeuristic]
  rw [min_comm]
  ring

/-- Unfolding `findPathInScene` to its `findPath` call (definitional). -/
theorem findPathInScene_eq (start goal : Point) (scene : Scene)
    (options : PathfindingOptions) :
    findPathInScene start goal scene options =
      findPath start goal scene.getResolution.width scene.getResolution.height
        { options with isWalkable := some (fun y x =>
            if (match options.isWalkable with
                | some f => !(f y x)
                | none => false) then false
            else (scene.getEntitiesAtPosition y x).length == 0) } := rfl

/-- C9: `findPathInScene` returns exactly `findPath` at the scene's
resolution with the walkability predicate replaced by the conjunction of
the caller-supplied predicate (if any) and entity absence. -/
theorem claim_C9_findPathInScene_refines_findPath (start goal : Point)
    (scene : Scene) (options : PathfindingOptions) :
    findPathInScene start goal scene options =
      findPath start goal scene.getResolution.width scene.getResolution.height
        { options with isWalkable := some (fun y x =>
            (options.isWalkable.getD (fun _ _ => true)) y x &&
              (scene.getEntitiesAtPosition y x).isEmpty) } := by
  rw [findPathInScene_eq]
  have hfn : (fun y x =>
      if (match options.isWalkable with
          | some f => !(f y x)
          | none => false) then false
      else (scene.getEntitiesAtPosition y x).length == 0) =
      (fun y x =>
        (options.isWalkable.getD (fun _ _ => true)) y x &&
          (scene.getEntitiesAtPosition y x).isEmpty) := by
    funext y x
    have hempty : ((scene.getEntitiesAtPosition y x).length == 0) =
        (scene.getEntitiesAtPosition y x).isEmpty := by
      cases scene.getEntitiesAtPosition y x with
      | nil => rfl
      | cons e es => rfl
    cases hw : options.isWalkable with
    | none => simp [hempty]
    | some f =>
      cases hfx : f y x with
      | false => simp [hfx]
      | true => simp [hfx, hempty]
  rw [hfn]

/-! ## Path smoothing -/

theorem scanFarthest_ge (path : List Point) (isWalkable : Int → Int → Bool)
    (base : Point) :
    ∀ (fuel : Nat) (far i : Nat), far ≤ i →
      far ≤ scanFarthest path isWalkable base fuel far i := by
  intro fuel
  induction fuel with
  | zero =>
    intro far i _
    simp only [scanFarthest]
    exact Nat.le_refl far
  | succ fuel ih =>
    intro far i hfi
    simp only [scanFarthest]
    by_cases h1 : i < path.length
    · rw [if_pos h1]
      by_cases h2 : hasLineOfSight base (path.getD i default) isWalkable = true
      · rw [if_pos h2]
        exact Nat.le_trans hfi (ih i (i + 1) (Nat.le_succ i))
      · rw [if_neg h2]
    · rw [if_neg h1]

theorem scanFarthest_le (path : List Point) (isWalkable : Int → Int → Bool)
    (base : Point) :
    ∀ (fuel : Nat) (far i : Nat), far ≤ path.length - 1 →
      scanFarthest path isWalkable base fuel far i ≤ path.length - 1 := by
  intro fuel
  induction fuel with
  | zero =>
    intro far i hfar
    simp only [scanFarthest]
    exact hfar
  | succ fuel ih =>
    intro far i hfar
    simp only [scanFarthest]
    by_cases h1 : i < path.length
    · rw [if_pos h1]
      by_cases h2 : hasLineOfSight base (path.getD i default) isWalkable = true
      · rw [if_pos h2]
        exact ih i (i + 1) (by omega)
      · rw [if_neg h2]
        exact hfar
    · rw [if_neg h1]
      exact hfar

theorem smoothLoop_head (path : List Point) (isWalkable : Int → Int → Bool) :
    ∀ (fuel cur : Nat) (smoothed : List Point), smoothed ≠ [] →
      (smoothLoop path isWalkable fuel cur smoothed).head? = smoothed.head? := by
  intro fuel
  induction fuel with
  | zero =>
    intro cur smoothed _
    simp only [smoothLoop]
  | succ fuel ih =>
    intro cur smoothed hne
    simp only [smoothLoop]
    by_cases hc : cur < path.length - 1
    · rw [if_pos hc]
      have happ : ∀ x : Point, (smoothed ++ [x]).head? = smoothed.head? := by
        intro x
        cases smoothed with
        | nil => exact absurd rfl hne
        | cons a l => rfl
      rw [ih _ _ (by simp), happ]
    · rw [if_neg hc]

theorem smoothLoop_length (path : List Point) (isWalkable : Int → Int → Bool) :
    ∀ (fuel cur : Nat) (smoothed : List Point),
      (smoothLoop path isWalkable fuel cur smoothed).length ≤
        smoothed.length + (path.length - 1 - cur) := by
  intro fuel
  induction fuel with
  | zero =>
    intro cur smoothed
    simp only [smoothLoop]
    omega
  | succ fuel ih =>
    intro cur smoothed
    simp only [smoothLoop]
    by_cases hc : cur < path.length - 1
    · rw [if_pos hc]
      have hge := scanFarthest_ge path isWalkable (path.getD cur default)
        path.length (cur + 1) (cur + 2) (by omega)
      have := ih (scanFarthest path isWalkable (path.getD cur default)
          path.length (cur + 1) (cur + 2))
        (smoothed ++ [path.getD (scanFarthest path isWalkable
          (path.getD cur default) path.length (cur + 1) (cur + 2)) default])
      simp only [List.length_append, List.length_singleton] at this
      omega
    · rw [if_neg hc]
      omega

theorem smoothLoop_last (path : List Point) (isWalkable : Int → Int → Bool) :
    ∀ (fuel cur : Nat) (smoothed : List Point), cur ≤ path.length - 1 →
      path.length - 1 - cur ≤ fuel →
      smoothed.getLast? = some (path.getD cur default) →
      (smoothLoop path isWalkable fuel cur smoothed).getLast? =
        some (path.getD (path.length - 1) default) := by
  intro fuel
  induction fuel with
  | zero =>
    intro cur smoothed hle hfuel hlast
    have : cur = path.length - 1 := by omega
    simp only [smoothLoop]
    rw [hlast, this]
  | succ fuel ih =>
    intro cur smoothed hle hfuel hlast
    simp only [smoothLoop]
    by_cases hc : cur < path.length - 1
    · rw [if_pos hc]
      have hge := scanFarthest_ge path isWalkable (path.getD cur default)
        path.length (cur + 1) (cur + 2) (by omega)
      have hfle := scanFarthest_le path isWalkable (path.getD cur default)
        path.length (cur + 1) (cur + 2) (by omega)
      exact ih _ _ hfle (by omega) (List.getLast?_concat smoothed)
    · rw [if_neg hc]
      have : cur = path.length - 1 := by omega
      rw [hlast, this]

/-- C7: `smoothPath` keeps the first and last coordinates, never lengthens
the path, and returns inputs of length at most 2 unchanged. -/
theorem claim_C7_smoothPath_endpoints_length (path : List Point)
    (isWalkable : Int → Int → Bool) (hne : path ≠ []) :
    (smoothPath path isWalkable).head? = path.head? ∧
      (smoothPath path isWalkable).getLast? = path.getLast? ∧
      (smoothPath path isWalkable).length ≤ path.length ∧
      (path.length ≤ 2 → smoothPath path isWalkable = path) := by
  by_cases hlen : path.length ≤ 2
  · have heq : smoothPath path isWalkable = path := by
      simp only [smoothPath]
      rw [if_pos hlen]
    exact ⟨by rw [heq], by rw [heq], by rw [heq], fun _ => heq⟩
  · have heq : smoothPath path isWalkable =
        smoothLoop path isWalkable path.length 0 [path.getD 0 default] := by
      simp only [smoothPath]
      rw [if_neg hlen]
    have hhead : path.head? = some (path.getD 0 default) := by
      cases path with
      | nil => exact absurd rfl hne
      | cons a l => rfl
    have hlast : path.getLast? = some (path.getD (path.length - 1) default) := by
      rw [List.getLast?_eq_getElem?, List.getD_eq_getElem?_getD]
      have hidx : path.length - 1 < path.length := by
        cases path with
        | nil => exact absurd rfl hne
        | cons a l => simp
      rw [List.getElem?_eq_getElem hidx]
      rfl
    refine ⟨?_, ?_, ?_, fun h => absurd h hlen⟩
    · rw [heq, smoothLoop_head path isWalkable path.length 0 _ (by simp), hhead]
      rfl
    · rw [heq, smoothLoop_last path isWalkable path.length 0 _ (by omega)
        (by omega) (by rfl), hlast]
    · have := smoothLoop_length path isWalkable path.length 0 [path.getD 0 default]
      rw [heq]
      simp only [List.length_singleton] at this
      omega

set_option maxRecDepth 400000 in
/-- Witness for C7 on a concrete three-point straight path, which the
smoother collapses to its two endpoints. -/
theorem claim_C7_smoothPath_endpoints_length_witness :
    (smoothPath [⟨0, 0⟩, ⟨0, 1⟩, ⟨0, 2⟩] (fun _ _ => true)).head? =
        ([(⟨0, 0⟩ : Point), ⟨0, 1⟩, ⟨0, 2⟩].head?) ∧
      (smoothPath [⟨0, 0⟩, ⟨0, 1⟩, ⟨0, 2⟩] (fun _ _ => true)).getLast? =
        ([(⟨0, 0⟩ : Point), ⟨0, 1⟩, ⟨0, 2⟩].getLast?) ∧
      (smoothPath [⟨0, 0⟩, ⟨0, 1⟩, ⟨0, 2⟩] (fun _ _ => true)).length ≤
        ([(⟨0, 0⟩ : Point), ⟨0, 1⟩, ⟨0, 2⟩].length) ∧
      (([(⟨0, 0⟩ : Point), ⟨0, 1⟩, ⟨0, 2⟩].length) ≤ 2 →
        smoothPath [⟨0, 0⟩, ⟨0, 1⟩, ⟨0, 2⟩] (fun _ _ => true) =
          [⟨0, 0⟩, ⟨0, 1⟩, ⟨0, 2⟩]) :=
  claim_C7_smoothPath_endpoints_length [⟨0, 0⟩, ⟨0, 1⟩, ⟨0, 2⟩]
    (fun _ _ => true) (by simp)

/-! ## Step selection -/

/-- C8: `getNextStep` returns `none` on an empty path; the path head when
the current position matches no element (`findIndex` returns `-1`); `none`
when the matched index is the last index; and otherwise the element
immediately following the matched index. -/
theorem claim_C8_getNextStep_cases (path : List Point) (currentPosition : Point) :
    (path = [] → getNextStep path currentPosition = none) ∧
      ((∀ p ∈ path, ¬(p.y = currentPosition.y ∧ p.x = currentPosition.x)) →
        getNextStep path currentPosition = path.head?) ∧
      (∀ i, path.findIdx? (fun p =>
          p.y == currentPosition.y && p.x == currentPosition.x) = some i →
        (i = path.length - 1 → getNextStep path currentPosition = none) ∧
        (i < path.length - 1 →
          getNextStep path currentPosition = path[i + 1]?)) := by
  refine ⟨?_, ?_, ?_⟩
  · intro h
    subst h
    rfl
  · intro hnone
    cases hp : path with
    | nil => rfl
    | cons a l =>
      subst hp
      have hfind : (a :: l).findIdx? (fun p =>
          p.y == currentPosition.y && p.x == currentPosition.x) = none := by
        rw [List.findIdx?_eq_none_iff]
        intro x hx
        have hx' := hnone x hx
        by_cases hy : x.y = currentPosition.y
        · by_cases hxx : x.x = currentPosition.x
          · exact absurd ⟨hy, hxx⟩ hx'
          · simp [hxx]
        · simp [hy]
      simp only [getNextStep, hfind]
      rfl
  · intro i hfi
    have hi_lt : i < path.length :=
      (List.findIdx?_eq_some_iff_findIdx_eq.1 hfi).1
    have hlen : ¬ path.length = 0 := by omega
    constructor
    · intro hilast
      simp only [getNextStep, if_neg hlen, hfi]
      rw [if_pos (by omega)]
    · intro hinot
      simp only [getNextStep, if_neg hlen, hfi]
      rw [if_neg (by omega), List.getD_eq_getElem?_getD,
        List.getElem?_eq_getElem (by omega : i + 1 < path.length)]
      rfl

/-- Witness for C8: all four branches exercised on concrete paths. -/
theorem claim_C8_getNextStep_cases_witness :
    getNextStep [] ⟨0, 0⟩ = none ∧
      getNextStep [⟨0, 0⟩, ⟨1, 0⟩] ⟨5, 5⟩ = [(⟨0, 0⟩ : Point), ⟨1, 0⟩].head? ∧
      getNextStep [⟨0, 0⟩, ⟨1, 0⟩] ⟨1, 0⟩ = none ∧
      getNextStep [⟨0, 0⟩, ⟨1, 0⟩] ⟨0, 0⟩ = [(⟨0, 0⟩ : Point), ⟨1, 0⟩][0 + 1]? :=
  ⟨(claim_C8_getNextStep_cases [] ⟨0, 0⟩).1 rfl,
    (claim_C8_getNextStep_cases [⟨0, 0⟩, ⟨1, 0⟩] ⟨5, 5⟩).2.1 (by decide),
    ((claim_C8_getNextStep_cases [⟨0, 0⟩, ⟨1, 0⟩] ⟨1, 0⟩).2.2 1 (by decide)).1
      (by decide),
    ((claim_C8_getNextStep_cases [⟨0, 0⟩, ⟨1, 0⟩] ⟨0, 0⟩).2.2 0 (by decide)).2
      (by decide)⟩
